import Mathlib

/-!
Shallow embedding of the Socialite event-aggregation core:
`src/services/aggregator.py` (provider discovery, fan-out result assembly,
dedup, sort, pagination) and `src/providers/base.py` (field coercions and
the `build_event` normalizer).  Python machine details are modelled as:
strings are Lean `String` (sequences of code points, matching Python's
`str`), dict-valued fields are the `Value` inductive, absent/None string
fields are `Option String`, floats are `Rat` (the float values reachable
from the price strings the code handles are decimal), instants are seconds
since an epoch (`Nat`), and fallible paths return `Option`/`Except`.
-/

-- A Python value as it can appear in a provider-supplied event field:
-- `None`, a string, a number, a JSON-ish dict, or anything else.  Dict
-- entries are a mutually inductive list so that every function on values
-- is plain structural recursion.
mutual
inductive Value where
  | none : Value
  | str (s : String) : Value
  | num (q : Rat) : Value
  | dict (entries : EntryList) : Value
  | other : Value

inductive EntryList where
  | nil : EntryList
  | cons (k : String) (v : Value) (rest : EntryList) : EntryList
end

/-- Python truthiness for `Value` (`if v:`). -/
def pyTruthy : Value → Bool
  | .none => false
  | .str s => s != ""
  | .num q => q != 0
  | .dict .nil => false
  | .dict (.cons _ _ _) => true
  | .other => true

/-- Python `dict.get(k)` on the association-list model: first binding wins,
absent key gives `None`. -/
def dictGet : EntryList → String → Value
  | .nil, _ => .none
  | .cons k' v rest, k => if k' = k then v else dictGet rest k

-- Nesting depth of dicts inside a value; bounds the recursion depth of
-- the country coercion.
mutual
def vdepth : Value → Nat
  | .dict l => edepth l + 1
  | _ => 0

def edepth : EntryList → Nat
  | .nil => 0
  | .cons _ v rest => max (vdepth v) (edepth rest)
end

-- ---------- character/string helpers (Python `str` methods) ----------

/-- ASCII lowercase letter test. -/
def isLowerAscii (c : Char) : Bool := 97 ≤ c.toNat && c.toNat ≤ 122

/-- ASCII uppercase letter test. -/
def isUpperAscii (c : Char) : Bool := 65 ≤ c.toNat && c.toNat ≤ 90

/-- Python `str.upper` per character (ASCII range; other code points kept,
which is all the repository's inputs exercise). -/
def pyToUpper (c : Char) : Char :=
  if isLowerAscii c then Char.ofNat (c.toNat - 32) else c

/-- Python `str.lower` per character (ASCII range). -/
def pyToLower (c : Char) : Char :=
  if isUpperAscii c then Char.ofNat (c.toNat + 32) else c

def pyUpper (s : String) : String := ⟨s.data.map pyToUpper⟩

def pyLower (s : String) : String := ⟨s.data.map pyToLower⟩

/-- Python whitespace (the characters `\s` matches on the repo's inputs). -/
def isWS (c : Char) : Bool :=
  c = ' ' || c = '\t' || c = '\n' || c = '\r' || c = '\x0b' || c = '\x0c'

/-- Python `str.strip()` on a character list. -/
def stripList (l : List Char) : List Char :=
  ((l.dropWhile isWS).reverse.dropWhile isWS).reverse

/-- Python `str.strip()`. -/
def pyStrip (s : String) : String := ⟨stripList s.data⟩

/-- Python slice `s[:n]`. -/
def pyTake (s : String) (n : Nat) : String := ⟨s.data.take n⟩

/-- Python `str.isalpha()` (ASCII letters; the code's 2-letter-code test). -/
def pyIsAlpha (s : String) : Bool :=
  s ≠ "" && s.data.all (fun c => isLowerAscii c || isUpperAscii c)

/-- Model of `_ws_re.sub(" ", s)`: replace each maximal whitespace run by one space
(src/providers/base.py, `_ws_re = re.compile(r"\s+")`). -/
def collapseWS : List Char → List Char
  | [] => []
  | [c] => if isWS c then [' '] else [c]
  | c :: d :: rest =>
    if isWS c then
      (if isWS d then collapseWS (d :: rest) else ' ' :: collapseWS (d :: rest))
    else c :: collapseWS (d :: rest)

/-- Model of `_clean` (src/providers/base.py lines 20-23): `None`/empty stays `None`,
otherwise whitespace runs collapse to single spaces and the ends are
stripped. -/
def pyClean : Option String → Option String
  | Option.none => Option.none
  | Option.some s =>
    if s = "" then Option.none else Option.some ⟨stripList (collapseWS s.data)⟩

-- ---------- country coercion (src/providers/base.py lines 44-71) ----------

/-- The `_COUNTRY_ALIASES` table (src/providers/base.py lines 29-42). -/
def countryAliases : List (String × String) :=
  [("lt", "LT"), ("lithuania", "LT"), ("lietuva", "LT"),
   ("lv", "LV"), ("latvia", "LV"), ("latvija", "LV"),
   ("ee", "EE"), ("estonia", "EE"), ("eesti", "EE"),
   ("pl", "PL"), ("poland", "PL"),
   ("de", "DE"), ("germany", "DE"), ("deutschland", "DE"),
   ("se", "SE"), ("sweden", "SE"),
   ("fi", "FI"), ("finland", "FI"),
   ("no", "NO"), ("norway", "NO"),
   ("ru", "RU"), ("russia", "RU"), ("россия", "RU"),
   ("by", "BY"), ("belarus", "BY"), ("беларусь", "BY")]

def aliasLookup (s : String) : Option String :=
  match countryAliases.find? (fun p => p.1 = s) with
  | Option.some p => Option.some p.2
  | Option.none => Option.none

/-- The dict branch of `_coerce_country`: try the keys in order and return
the first truthy value found. -/
def firstCountryVal (l : EntryList) : Option Value :=
  pick ["countryCode", "addressCountry", "name", "code"]
where
  pick : List String → Option Value
    | [] => Option.none
    | k :: ks =>
      let v := dictGet l k
      if pyTruthy v then Option.some v else pick ks

/-- The string branch of `_coerce_country` (src/providers/base.py 61-69). -/
def coerceCountryStr (s0 : String) (d : Option String) : Option String :=
  let s := pyStrip s0
  if s.length = 2 && pyIsAlpha s then Option.some (pyUpper s)
  else
    match aliasLookup (pyLower s) with
    | Option.some a => Option.some a
    | Option.none =>
      if s.length ≥ 2 then Option.some (pyUpper (pyTake s 2)) else d

/-- Model of `_coerce_country` with explicit recursion fuel.  The Python function
recurses only into values extracted from a dict, so each recursive call is
on a value of strictly smaller dict-nesting depth; the wrapper below
supplies fuel `vdepth v + 1`, which `coerceCountryF_fuel` proves
sufficient, so the `fuel = 0` default case is unreachable from the
wrapper. -/
def coerceCountryF : Nat → Value → Option String → Option String
  | 0, _, d => d
  | _ + 1, .none, d => d
  | fuel + 1, .dict l, d =>
    match firstCountryVal l with
    | Option.some v => coerceCountryF fuel v d
    | Option.none => d
  | _ + 1, .str s, d => coerceCountryStr s d
  | _ + 1, .num _, d => d
  | _ + 1, .other, d => d

/-- Model of `_coerce_country` (src/providers/base.py lines 44-71). -/
def coerceCountry (v : Value) (d : Option String) : Option String :=
  coerceCountryF (vdepth v + 1) v d

-- ---------- currency / price coercion (src/providers/base.py) ----------

/-- Model of `_coerce_currency` (src/providers/base.py lines 74-81). -/
def coerceCurrency (v : Value) : Option String :=
  if pyTruthy v then
    match v with
    | .str s =>
      let u := pyUpper (pyStrip s)
      if u.length ≥ 3 then Option.some (pyTake u 3)
      else if u = "" then Option.none else Option.some u
    | _ => Option.none
  else Option.none

/-- Decimal digits of a numeral, most significant first. -/
def digitsVal (l : List Char) : Nat :=
  l.foldl (fun acc c => acc * 10 + (c.toNat - 48)) 0

/-- Python `float(s)` on the plain decimal forms the code's price strings
take: optional sign, then digits with an optional fractional part
(`12`, `12.5`, `.5`, `5.`).  Anything else — including the malformed
strings the spec talks about — is a parse failure (`None` downstream). -/
def parseFloat (s : String) : Option Rat :=
  match s.data with
  | '-' :: rest => (parseUnsigned rest).map Neg.neg
  | '+' :: rest => parseUnsigned rest
  | l => parseUnsigned l
where
  parseUnsigned (l : List Char) : Option Rat :=
    let ip := l.takeWhile Char.isDigit
    let rest := l.dropWhile Char.isDigit
    match rest with
    | [] => if ip = [] then Option.none else Option.some (digitsVal ip)
    | '.' :: frac =>
      if frac.all Char.isDigit && (ip ≠ [] || frac ≠ []) then
        Option.some ((digitsVal ip : Rat) + (digitsVal frac : Rat) / (10 ^ frac.length : Nat))
      else Option.none
    | _ => Option.none

/-- Model of `_coerce_min_price` (src/providers/base.py lines 84-93): `None` stays
`None`, the value's string form is stripped, empty gives `None`, and
`float(...)` failure is caught and gives `None`.  A numeric input round
trips through `str`/`float` to itself; a non-numeric non-string input's
string form does not parse. -/
def coerceMinPrice : Value → Option Rat
  | .none => Option.none
  | .num q => Option.some q
  | .str s =>
    let t := pyStrip s
    if t = "" then Option.none else parseFloat t
  | _ => Option.none

-- ---------- Event records ----------

/-- Python `e or alt` for optional string fields: an absent or empty string falls
through to the alternative. -/
def orStr (v : Option String) (alt : Option String) : Option String :=
  match v with
  | Option.some s => if s = "" then alt else Option.some s
  | Option.none => alt

/-- An event dict as it flows through the aggregator.  String-typed fields
are `Option String` (absent/`None` vs a string); `country` and `min_price`
can be arbitrary values before coercion. -/
structure Ev where
  id : Option String := Option.none
  external_id : Option String := Option.none
  source : Option String := Option.none
  title : Option String := Option.none
  category : Option String := Option.none
  start_time : Option String := Option.none
  city : Option String := Option.none
  country : Value := Value.none
  venue_name : Option String := Option.none
  url : Option String := Option.none
  description : Option String := Option.none
  image_url : Option String := Option.none
  currency : Option String := Option.none
  min_price : Value := Value.none

/-- Model of `build_event` (src/providers/base.py lines 100-136). -/
def buildEvent (title : Option String) (start_time : Option String)
    (city : Option String) (country : Value) (url : Option String)
    (venue_name : Option String := Option.none)
    (category : Option String := Option.none)
    (description : Option String := Option.none)
    (image_url : Option String := Option.none)
    (currency : Value := Value.none)
    (min_price : Value := Value.none)
    (external_id : Option String := Option.none)
    (source : Option String := Option.none) : Ev :=
  { id := Option.none
    external_id := orStr external_id Option.none
    source := orStr source (Option.some "web")
    title := Option.some (pyStrip (title.getD ""))
    category := pyClean category
    start_time := start_time
    city := pyClean city
    country :=
      match coerceCountry country Option.none with
      | Option.some s => Value.str s
      | Option.none => Value.none
    venue_name := pyClean venue_name
    url := url
    description := orStr (pyClean description) Option.none
    image_url := orStr image_url Option.none
    currency := coerceCurrency currency
    min_price :=
      match coerceMinPrice min_price with
      | Option.some q => Value.num q
      | Option.none => Value.none }

-- ---------- Deduplication (src/services/aggregator.py lines 276-289) ----------

/-- The grouping key of `_dedupe`: the `url` when present and non-empty,
otherwise the tuple of lowercased/stripped title, raw `start_time`,
lowercased/stripped venue and city. -/
inductive DKey where
  | byUrl (u : String)
  | byTup (title : String) (start : Option String) (venue : String) (city : String)
deriving DecidableEq, Repr

def dkey (e : Ev) : DKey :=
  match e.url with
  | Option.some u =>
    if u ≠ "" then DKey.byUrl u
    else
      DKey.byTup (pyLower (pyStrip (e.title.getD ""))) e.start_time
        (pyLower (pyStrip (e.venue_name.getD ""))) (pyLower (pyStrip (e.city.getD "")))
  | Option.none =>
    DKey.byTup (pyLower (pyStrip (e.title.getD ""))) e.start_time
      (pyLower (pyStrip (e.venue_name.getD ""))) (pyLower (pyStrip (e.city.getD "")))

/-- The `_dedupe` loop: `seen` is the set of keys accepted so far. -/
def dedupeGo (seen : List DKey) : List Ev → List Ev
  | [] => []
  | e :: rest =>
    if dkey e ∈ seen then dedupeGo seen rest
    else e :: dedupeGo (dkey e :: seen) rest

/-- Model of `_dedupe` (src/services/aggregator.py lines 276-289). -/
def dedupe (items : List Ev) : List Ev := dedupeGo [] items

-- ---------- Sorting (src/services/aggregator.py lines 292-295, 389) ----------

/-- Code-point lexicographic `<` on strings (Python string comparison). -/
def charListLt : List Char → List Char → Bool
  | [], [] => false
  | [], _ :: _ => true
  | _ :: _, [] => false
  | a :: l1, b :: l2 =>
    if a.toNat < b.toNat then true
    else if a.toNat = b.toNat then charListLt l1 l2 else false

def strLt (a b : String) : Bool := charListLt a.data b.data

/-- Model of `_sort_key` (src/services/aggregator.py lines 292-295). -/
def sortKey (e : Ev) : String × String :=
  (match e.start_time with
   | Option.some s => if s = "" then "9999-12-31T00:00:00Z" else s
   | Option.none => "9999-12-31T00:00:00Z",
   pyLower (e.title.getD ""))

/-- Python tuple `<=` on the sort keys. -/
def sortKeyLe (a b : String × String) : Bool :=
  strLt a.1 b.1 || (a.1 == b.1 && (strLt a.2 b.2 || a.2 == b.2))

def evLE (a b : Ev) : Prop := sortKeyLe (sortKey a) (sortKey b) = true

instance : DecidableRel evLE := fun a b => by unfold evLE; infer_instance

/-- Model of `items.sort(key=_sort_key)`: a stable ascending sort by `_sort_key`. -/
def sortEvents (l : List Ev) : List Ev := List.insertionSort evLE l

-- ---------- Sanitization and the date window ----------

/-- Model of `_sanitize_item` (src/services/aggregator.py lines 211-214): overwrite
`country` with the coerced value and drop the item only when that value is
falsy. -/
def sanitizeItem (ev : Ev) (default_cc : String) : Option Ev :=
  match coerceCountry ev.country (Option.some default_cc) with
  | Option.some s =>
    if s ≠ "" then Option.some { ev with country := Value.str s }
    else Option.none
  | Option.none => Option.none

/-- The per-request default country code
(src/services/aggregator.py line 383): `country[:2].upper() if country
else "LT"`. -/
def defaultCC (country : String) : String :=
  if country ≠ "" then pyUpper (pyTake country 2) else "LT"

/-- Model of `_date_window` (src/services/aggregator.py lines 247-253) over instants
in seconds since an epoch: `start` is 00:00:00 of the UTC day of
`now + start_in_days` days, `end` is 23:59:59 of the UTC day of
`now + (start_in_days + days_ahead)` days. -/
def dateWindow (start_in_days days_ahead : Nat) (now : Nat) : Nat × Nat :=
  let start := ((now + start_in_days * 86400) / 86400) * 86400
  let stop := ((now + (start_in_days + days_ahead) * 86400) / 86400) * 86400 + 86399
  (start, stop)

-- ---------- Fan-out (src/services/aggregator.py lines 300-405) ----------

/-- A provider as the fan-out sees it: its key and the outcome of calling
its `search` — either a list of raw event dicts, or the message of the
exception it raised. -/
structure PRun where
  key : String
  outcome : Except String (List Ev)

/-- Substring test (`"mock" in p.key.lower()`). -/
def startsWithList : List Char → List Char → Bool
  | [], _ => true
  | _ :: _, [] => false
  | a :: l1, b :: l2 => a == b && startsWithList l1 l2

def hasSubList (hay needle : List Char) : Bool :=
  if startsWithList needle hay then true
  else
    match hay with
    | [] => false
    | _ :: rest => hasSubList rest needle

def strHasSub (hay needle : String) : Bool := hasSubList hay.data needle.data

/-- Model of `_call_provider` (src/services/aggregator.py lines 300-332): an
exception becomes `(key, [], error)`; otherwise each dict item gets its
`source` defaulted to the provider key and the outcome is
`(key, items, None)`. -/
def callProvider (p : PRun) : String × List Ev × Option String :=
  match p.outcome with
  | Except.error e => (p.key, [], Option.some e)
  | Except.ok chunk =>
    (p.key,
     chunk.map (fun e =>
       match e.source with
       | Option.some _ => e
       | Option.none => { e with source := Option.some p.key }),
     Option.none)

/-- The aggregate search result (src/services/aggregator.py lines
393-405); `window` is kept as the pair of instants rather than its ISO
rendering. -/
structure SearchResult where
  count : Nat
  total : Nat
  items : List Ev
  providers_used : List String
  provider_errors : List (String × String)
  window : Nat × Nat
  dbg_discovered : List String
  dbg_limit : Nat
  dbg_offset : Nat

/-- The sanitized items a single provider outcome contributes: nothing on
error, otherwise each raw item through `_sanitize_item` with `None`
results dropped. -/
def chunkItems (dcc : String) : String × List Ev × Option String → List Ev
  | (_, _, Option.some _) => []
  | (_, chunk, Option.none) => chunk.filterMap (fun e => sanitizeItem e dcc)

/-- Model of `_search_events_async` (src/services/aggregator.py lines 335-405),
with the provider calls already settled in `allProviders` (the ledger's
adapters in discovery order); `now` is the current UTC instant. -/
def searchEventsModel (allProviders : List PRun) (city country : String)
    (days_ahead : Nat := 60) (start_in_days : Nat := 0)
    (include_mock : Bool := false) (limit : Nat := 50) (offset : Nat := 0)
    (now : Nat := 0) : SearchResult :=
  let providers :=
    if include_mock = false then
      allProviders.filter (fun p => !(strHasSub (pyLower p.key) "mock"))
    else allProviders
  let window := dateWindow start_in_days days_ahead now
  let results := providers.map callProvider
  let provider_errors :=
    results.filterMap (fun r =>
      match r.2.2 with
      | Option.some err => Option.some (r.1, err)
      | Option.none => Option.none)
  let dcc := defaultCC country
  let items := (results.map (chunkItems dcc)).flatten
  let deduped := dedupe items
  let sorted := sortEvents deduped
  let total := sorted.length
  let page := (sorted.drop offset).take limit
  { count := page.length
    total := total
    items := page
    providers_used := providers.map (·.key)
    provider_errors := provider_errors
    window := window
    dbg_discovered := allProviders.map (·.key)
    dbg_limit := limit
    dbg_offset := offset }

-- ---------- Provider discovery (src/services/aggregator.py 66-218) ----------

/-- A resolved `search` entry point: whether it is a coroutine function and
the display-name attribute read next to it (`NAME` for a module function,
`inst.name` for an instance). -/
structure FnInfo where
  isAsync : Bool
  displayName : Option String
deriving DecidableEq, Repr

/-- What a provider module exposes, as the loader probes it.  For the class
and factory routes, `Except.error` is an instantiation failure and
`Except.ok Option.none` an instance without a callable `search`. -/
structure ModContent where
  searchFn : Option FnInfo
  providerCls : Option (Except String (Option FnInfo))
  getProv : Option (Except String (Option FnInfo))

/-- A module of the `providers` package: its leaf name and what importing
it yields (`Except.error` is an import failure). -/
structure PMod where
  leaf : String
  content : Except String ModContent

def modName (m : PMod) : String := "providers." ++ m.leaf

inductive Via where
  | func
  | cls
  | factory
deriving DecidableEq, Repr

/-- A loaded adapter (the `Provider` dataclass, minus the callable). -/
structure ProviderA where
  key : String
  module : String
  isAsync : Bool
  displayName : String
deriving DecidableEq, Repr

structure LoadedEntry where
  key : String
  module : String
  via : Via
deriving DecidableEq, Repr

/-- The `_DISCOVERY` ledger plus the `_PROVIDERS` list. -/
structure DiscoveryState where
  discovered_modules : List String
  loaded : List LoadedEntry
  skipped : List (String × String)
  errors : List (String × String)
  providers : List ProviderA
deriving DecidableEq, Repr

def DiscoveryState.empty : DiscoveryState :=
  { discovered_modules := [], loaded := [], skipped := [], errors := [],
    providers := [] }

/-- Python dict assignment `d[k] = v`: overwrite in place, else append. -/
def dictSet (l : List (String × String)) (k v : String) : List (String × String) :=
  if l.any (fun p => p.1 = k) then
    l.map (fun p => if p.1 = k then (k, v) else p)
  else l ++ [(k, v)]

/-- One iteration of the `_load_providers` loop (src/services/aggregator.py
lines 127-208) on a module. -/
def processMod (st : DiscoveryState) (m : PMod) : DiscoveryState :=
  let key := m.leaf
  let full := modName m
  match m.content with
  | Except.error e => { st with errors := dictSet st.errors full e }
  | Except.ok c =>
    match c.searchFn with
    | Option.some fi =>
      { st with
        providers := st.providers ++
          [{ key := key, module := full, isAsync := fi.isAsync,
             displayName := fi.displayName.getD key }]
        loaded := st.loaded ++ [{ key := key, module := full, via := Via.func }] }
    | Option.none =>
      let afterCls : DiscoveryState × Bool :=
        match c.providerCls with
        | Option.some (Except.ok (Option.some fi)) =>
          ({ st with
             providers := st.providers ++
               [{ key := key, module := full, isAsync := fi.isAsync,
                  displayName := fi.displayName.getD key }]
             loaded := st.loaded ++ [{ key := key, module := full, via := Via.cls }] },
           true)
        | Option.some (Except.error e) =>
          ({ st with errors := dictSet st.errors full ("Provider() init failed: " ++ e) },
           false)
        | _ => (st, false)
      if afterCls.2 then afterCls.1
      else
        let st1 := afterCls.1
        let afterFac : DiscoveryState × Bool :=
          match c.getProv with
          | Option.some (Except.ok (Option.some fi)) =>
            ({ st1 with
               providers := st1.providers ++
                 [{ key := key, module := full, isAsync := fi.isAsync,
                    displayName := fi.displayName.getD key }]
               loaded := st1.loaded ++
                 [{ key := key, module := full, via := Via.factory }] },
             true)
          | Option.some (Except.error e) =>
            ({ st1 with errors := dictSet st1.errors full ("get_provider() failed: " ++ e) },
             false)
          | _ => (st1, false)
        if afterFac.2 then afterFac.1
        else
          { afterFac.1 with
            skipped := afterFac.1.skipped ++ [(full, "no_search_function")] }

/-- Model of `_load_providers()` (src/services/aggregator.py lines 118-208) over the
package's module list: clears `_PROVIDERS` and the `loaded`/`skipped`/
`errors` ledger entries, then iterates `_iter_provider_modules()` — which
appends every non-underscore module name to `discovered_modules` without
clearing it — and classifies each module. -/
def loadProviders (env : List PMod) (st : DiscoveryState) : DiscoveryState :=
  let cleared : DiscoveryState :=
    { discovered_modules := st.discovered_modules, loaded := [], skipped := [],
      errors := [], providers := [] }
  let mods := env.filter (fun m => !(startsWithList "_".data m.leaf.data))
  let withDisc :=
    { cleared with
      discovered_modules := cleared.discovered_modules ++ mods.map modName }
  mods.foldl processMod withDisc

-- ---------- derived predicates and fixtures used by the theorems ----------

/-- No ASCII lowercase letter anywhere in the string — what `str.upper`
guarantees about its output. -/
def noLowerStr (s : String) : Bool := s.data.all (fun c => !isLowerAscii c)

/-- No two adjacent whitespace characters. -/
def noWSRun (l : List Char) : Prop :=
  List.Chain' (fun a b => ¬(isWS a = true ∧ isWS b = true)) l

/-- A string is clean when it has no leading or trailing whitespace and no
whitespace run of length two or more. -/
def isCleanStr (s : String) : Prop :=
  (∀ c, s.data.head? = Option.some c → isWS c = false) ∧
  (∀ c, s.data.getLast? = Option.some c → isWS c = false) ∧
  noWSRun s.data

def isCleanOpt : Option String → Prop
  | Option.none => True
  | Option.some s => isCleanStr s

/-- The `debug.provider_errors` entry a provider produces. -/
def errEntry (p : PRun) : Option (String × String) :=
  match p.outcome with
  | Except.error e => Option.some (p.key, e)
  | Except.ok _ => Option.none

/-- The sanitized items the non-raising providers contribute, in provider
order: the pool entering `_dedupe`. -/
def okItemsOf (ps : List PRun) (dcc : String) : List Ev :=
  (ps.map (fun p => chunkItems dcc (callProvider p))).flatten

/-- Pairwise-distinct dedup keys. -/
abbrev distinctKeys (l : List Ev) : Prop :=
  List.Pairwise (fun a b => dkey a ≠ dkey b) l

-- Fixtures: the "Jazz Night" pair of the fuzzy-dedup claim (same venue,
-- same start, no url), an exact duplicate, an untitled item, a
-- messy-whitespace item, and a few providers.

def jazz1 : Ev :=
  { title := Option.some "Jazz Night at Blue Note"
    start_time := Option.some "2025-07-01T19:00:00Z"
    venue_name := Option.some "Blue Note"
    city := Option.some "Vilnius" }

def jazz2 : Ev :=
  { title := Option.some "Jazz Night @ Blue Note"
    start_time := Option.some "2025-07-01T19:00:00Z"
    venue_name := Option.some "Blue Note"
    city := Option.some "Vilnius" }

def jazzDup : Ev := { jazz1 with description := Option.some "late show" }

def evNoTitle : Ev := { url := Option.some "https://ex.example/e1" }

def evMessy : Ev :=
  { title := Option.some "Jazz  Night "
    venue_name := Option.some " Blue  Note"
    city := Option.some "Vilnius"
    url := Option.some "https://ex.example/e2" }

def evA : Ev :=
  { title := Option.some "Street Food Festival"
    url := Option.some "https://ex.example/a" }

def evB : Ev :=
  { title := Option.some "Jazz Night"
    url := Option.some "https://ex.example/b" }

def evU1 : Ev :=
  { title := Option.some "Opera Gala"
    url := Option.some "https://ex.example/u" }

def evU2 : Ev :=
  { title := Option.some "Opera Gala (reposted)"
    url := Option.some "https://ex.example/u"
    min_price := Value.num 25 }

def pAlpha : PRun := { key := "alpha", outcome := Except.ok [evA] }

def pBoom : PRun := { key := "boom", outcome := Except.error "RuntimeError: kaput" }

def pGamma : PRun := { key := "gamma", outcome := Except.ok [evB] }

def mockMod : PMod :=
  { leaf := "mock_local"
    content := Except.ok
      { searchFn := Option.some { isAsync := false, displayName := Option.none }
        providerCls := Option.none
        getProv := Option.none } }

-- ---------- lemmas: country coercion ----------

theorem vdepth_dictGet : ∀ (l : EntryList) (k : String),
    vdepth (dictGet l k) ≤ edepth l
  | .nil, _ => by simp [dictGet, vdepth, edepth]
  | .cons k' v rest, k => by
    simp only [dictGet, edepth]
    by_cases h : k' = k
    · rw [if_pos h]; exact le_max_left _ _
    · rw [if_neg h]; exact le_trans (vdepth_dictGet rest k) (le_max_right _ _)

theorem firstCountryVal_pick_depth (l : EntryList) :
    ∀ ks v, firstCountryVal.pick l ks = Option.some v → vdepth v ≤ edepth l := by
  intro ks
  induction ks with
  | nil => intro v h; simp [firstCountryVal.pick] at h
  | cons k ks ih =>
    intro v h
    simp only [firstCountryVal.pick] at h
    split at h
    · cases h; exact vdepth_dictGet l k
    · exact ih v h

theorem firstCountryVal_depth (l : EntryList) (v : Value)
    (h : firstCountryVal l = Option.some v) : vdepth v ≤ edepth l :=
  firstCountryVal_pick_depth l _ v h

/-- The fuel argument of `coerceCountryF` is irrelevant as long as it
exceeds the dict-nesting depth: the model computes the same answer the
unbounded Python recursion does. -/
theorem coerceCountryF_fuel :
    ∀ f1 f2 v d, vdepth v < f1 → vdepth v < f2 →
      coerceCountryF f1 v d = coerceCountryF f2 v d := by
  intro f1
  induction f1 with
  | zero => intro f2 v d h1 _; exact absurd h1 (Nat.not_lt_zero _)
  | succ n ih =>
    intro f2 v d h1 h2
    cases f2 with
    | zero => exact absurd h2 (Nat.not_lt_zero _)
    | succ m =>
      cases v with
      | none => rfl
      | str s => rfl
      | num q => rfl
      | other => rfl
      | dict l =>
        simp only [coerceCountryF]
        cases hf : firstCountryVal l with
        | none => rfl
        | some v' =>
          have hd := firstCountryVal_depth l v' hf
          have hdl : vdepth (Value.dict l) = edepth l + 1 := rfl
          exact ih m v' d (by omega) (by omega)

theorem coerceCountry_dict (l : EntryList) (d : Option String) :
    coerceCountry (Value.dict l) d =
      match firstCountryVal l with
      | Option.some v => coerceCountry v d
      | Option.none => d := by
  unfold coerceCountry
  have hdl : vdepth (Value.dict l) = edepth l + 1 := rfl
  rw [hdl]
  simp only [coerceCountryF]
  cases hf : firstCountryVal l with
  | none => rfl
  | some v' =>
    have hd := firstCountryVal_depth l v' hf
    exact coerceCountryF_fuel _ _ v' d (by omega) (by omega)

theorem strLength_mk (l : List Char) : (⟨l⟩ : String).length = l.length := rfl

theorem str_ne_empty_iff (s : String) : s ≠ "" ↔ s.data ≠ [] := by
  cases s with
  | mk l =>
    constructor
    · intro h hl; apply h; rw [show l = ("" : String).data from hl]
    · intro h he; apply h; simpa using congrArg String.data he

theorem length_pyUpper (s : String) : (pyUpper s).length = s.length := by
  unfold pyUpper
  rw [strLength_mk, List.length_map]
  rfl

theorem isLowerAscii_pyToUpper (c : Char) : isLowerAscii (pyToUpper c) = false := by
  unfold pyToUpper
  by_cases h : isLowerAscii c = true
  · rw [if_pos h]
    unfold isLowerAscii at h
    rw [Bool.and_eq_true, decide_eq_true_eq, decide_eq_true_eq] at h
    have hv : (Char.ofNat (c.toNat - 32)).toNat = c.toNat - 32 := by
      unfold Char.ofNat
      rw [dif_pos]
      · rfl
      · exact Or.inl (by omega)
    unfold isLowerAscii
    rw [hv, Bool.and_eq_false_iff]
    left
    rw [decide_eq_false_iff_not]
    omega
  · rw [if_neg h]
    exact Bool.not_eq_true _ |>.mp h

theorem noLower_pyUpper (s : String) : noLowerStr (pyUpper s) = true := by
  simp only [noLowerStr, pyUpper, List.all_eq_true]
  intro c hc
  rcases List.mem_map.mp hc with ⟨c0, _, rfl⟩
  simp [isLowerAscii_pyToUpper]

theorem aliasLookup_shape (s t : String) (h : aliasLookup s = Option.some t) :
    t.length = 2 ∧ noLowerStr t = true := by
  unfold aliasLookup at h
  cases hf : countryAliases.find? (fun p => p.1 = s) with
  | none => rw [hf] at h; cases h
  | some p =>
    rw [hf] at h
    have hm : p ∈ countryAliases := List.mem_of_find?_eq_some hf
    have hall : ∀ q ∈ countryAliases, q.2.length = 2 ∧ noLowerStr q.2 = true := by decide
    cases h
    exact hall p hm

theorem coerceCountryStr_shape (s : String) (d : Option String) :
    coerceCountryStr s d = d ∨
    ∃ t, coerceCountryStr s d = Option.some t ∧ t.length = 2 ∧ noLowerStr t = true := by
  unfold coerceCountryStr
  by_cases h2 : (decide ((pyStrip s).length = 2) && pyIsAlpha (pyStrip s)) = true
  · rw [if_pos h2]
    right
    refine ⟨_, rfl, ?_, noLower_pyUpper _⟩
    rw [Bool.and_eq_true, decide_eq_true_eq] at h2
    rw [length_pyUpper]
    exact h2.1
  · rw [if_neg h2]
    cases ha : aliasLookup (pyLower (pyStrip s)) with
    | some a =>
      right
      exact ⟨a, rfl, (aliasLookup_shape _ _ ha).1, (aliasLookup_shape _ _ ha).2⟩
    | none =>
      by_cases hl : (pyStrip s).length ≥ 2
      · rw [if_pos hl]
        right
        refine ⟨_, rfl, ?_, noLower_pyUpper _⟩
        rw [length_pyUpper]
        unfold pyTake
        rw [strLength_mk, List.length_take]
        have : (pyStrip s).data.length = (pyStrip s).length := rfl
        omega
      · rw [if_neg hl]
        left
        rfl

theorem coerceCountryF_shape : ∀ (fuel : Nat) (v : Value) (d : Option String),
    coerceCountryF fuel v d = d ∨
    ∃ t, coerceCountryF fuel v d = Option.some t ∧ t.length = 2 ∧ noLowerStr t = true := by
  intro fuel
  induction fuel with
  | zero => intro v d; left; rfl
  | succ n ih =>
    intro v d
    cases v with
    | none => left; rfl
    | str s => exact coerceCountryStr_shape s d
    | num q => left; rfl
    | other => left; rfl
    | dict l =>
      simp only [coerceCountryF]
      cases firstCountryVal l with
      | none => left; rfl
      | some v' => exact ih v' d

/-- Shape of `_coerce_country` output: its default or a 2-character string with no
lowercase letters. -/
theorem coerceCountry_shape (v : Value) (d : Option String) :
    coerceCountry v d = d ∨
    ∃ t, coerceCountry v d = Option.some t ∧ t.length = 2 ∧ noLowerStr t = true :=
  coerceCountryF_shape _ v d

theorem two_len_ne_empty {t : String} (hl : t.length = 2) : t ≠ "" := by
  intro he
  subst he
  simp at hl

theorem coerceCountry_truthy (v : Value) (dcc : String) (hd : dcc ≠ "") :
    ∃ s, coerceCountry v (Option.some dcc) = Option.some s ∧ s ≠ "" := by
  rcases coerceCountry_shape v (Option.some dcc) with h | ⟨t, ht, hl, _⟩
  · exact ⟨dcc, h, hd⟩
  · exact ⟨t, ht, two_len_ne_empty hl⟩

-- ---------- lemmas: sanitization ----------

theorem sanitizeItem_eq_some {ev : Ev} {dcc : String} {e' : Ev}
    (h : sanitizeItem ev dcc = Option.some e') :
    ∃ s, s ≠ "" ∧ coerceCountry ev.country (Option.some dcc) = Option.some s ∧
      e' = { ev with country := Value.str s } := by
  unfold sanitizeItem at h
  split at h
  next s heq =>
    split at h
    next hs => exact ⟨s, hs, heq, (Option.some.inj h).symm⟩
    next => cases h
  next => cases h

theorem sanitizeItem_ne_none (ev : Ev) (dcc : String) (hd : dcc ≠ "") :
    sanitizeItem ev dcc ≠ Option.none := by
  obtain ⟨s, hc, hs⟩ := coerceCountry_truthy ev.country dcc hd
  unfold sanitizeItem
  rw [hc]
  simp only [if_pos hs]
  exact Option.some_ne_none _

theorem sanitizeItem_title_blind (ev : Ev) (t' : Option String) (dcc : String) :
    (sanitizeItem { ev with title := t' } dcc).isSome = (sanitizeItem ev dcc).isSome := by
  unfold sanitizeItem
  cases coerceCountry ev.country (Option.some dcc) with
  | none => rfl
  | some s =>
    by_cases hs : s ≠ ""
    · simp only [if_pos hs, Option.isSome_some]
    · simp only [if_neg hs]

theorem defaultCC_ne_empty (country : String) : defaultCC country ≠ "" := by
  unfold defaultCC
  by_cases h : country ≠ ""
  · rw [if_pos h]
    rw [str_ne_empty_iff]
    unfold pyUpper pyTake
    simp only []
    intro he
    have hlen := congrArg List.length he
    simp only [List.length_map, List.length_take, List.length_nil] at hlen
    have hne : country.data ≠ [] := (str_ne_empty_iff country).mp h
    have : country.data.length ≠ 0 := fun h0 => hne (List.eq_nil_of_length_eq_zero h0)
    omega
  · rw [if_neg h]
    exact fun he => absurd he (by decide)

-- ---------- lemmas: exact-key deduplication ----------

theorem dedupeGo_sublist : ∀ (l : List Ev) (seen : List DKey),
    (dedupeGo seen l).Sublist l
  | [], _ => List.Sublist.refl []
  | e :: rest, seen => by
    unfold dedupeGo
    by_cases h : dkey e ∈ seen
    · rw [if_pos h]
      exact (dedupeGo_sublist rest seen).cons e
    · rw [if_neg h]
      exact (dedupeGo_sublist rest (dkey e :: seen)).cons₂ e

theorem dedupeGo_not_seen : ∀ (l : List Ev) (seen : List DKey) (e : Ev),
    e ∈ dedupeGo seen l → dkey e ∉ seen
  | [], _, _, h => absurd h (List.not_mem_nil _)
  | f :: rest, seen, e, h => by
    unfold dedupeGo at h
    by_cases hm : dkey f ∈ seen
    · rw [if_pos hm] at h
      exact dedupeGo_not_seen rest seen e h
    · rw [if_neg hm] at h
      rcases List.mem_cons.mp h with rfl | h'
      · exact hm
      · have := dedupeGo_not_seen rest (dkey f :: seen) e h'
        exact fun hs => this (List.mem_cons_of_mem _ hs)

theorem dedupeGo_pairwise : ∀ (l : List Ev) (seen : List DKey),
    List.Pairwise (fun a b => dkey a ≠ dkey b) (dedupeGo seen l)
  | [], _ => List.Pairwise.nil
  | e :: rest, seen => by
    unfold dedupeGo
    by_cases h : dkey e ∈ seen
    · rw [if_pos h]
      exact dedupeGo_pairwise rest seen
    · rw [if_neg h]
      refine List.Pairwise.cons ?_ (dedupeGo_pairwise rest (dkey e :: seen))
      intro b hb hkey
      exact dedupeGo_not_seen rest (dkey e :: seen) b hb (hkey ▸ List.mem_cons_self _ _)

theorem dedupeGo_first_occ : ∀ (l : List Ev) (seen : List DKey) (e : Ev),
    e ∈ dedupeGo seen l →
    ∃ pre post, l = pre ++ e :: post ∧
      ∀ x ∈ pre, dkey x ∈ seen ∨ dkey x ≠ dkey e
  | [], _, _, h => absurd h (List.not_mem_nil _)
  | f :: rest, seen, e, h => by
    unfold dedupeGo at h
    by_cases hm : dkey f ∈ seen
    · rw [if_pos hm] at h
      obtain ⟨pre, post, heq, hpre⟩ := dedupeGo_first_occ rest seen e h
      refine ⟨f :: pre, post, by rw [heq, List.cons_append], ?_⟩
      intro x hx
      rcases List.mem_cons.mp hx with rfl | hx'
      · exact Or.inl hm
      · exact hpre x hx'
    · rw [if_neg hm] at h
      rcases List.mem_cons.mp h with rfl | h'
      · exact ⟨[], rest, rfl, by intro x hx; exact absurd hx (List.not_mem_nil _)⟩
      · obtain ⟨pre, post, heq, hpre⟩ := dedupeGo_first_occ rest (dkey f :: seen) e h'
        have hne : dkey e ∉ (dkey f :: seen) :=
          dedupeGo_not_seen rest (dkey f :: seen) e h'
        refine ⟨f :: pre, post, by rw [heq, List.cons_append], ?_⟩
        intro x hx
        rcases List.mem_cons.mp hx with rfl | hx'
        · exact Or.inr fun hk => hne (hk ▸ List.mem_cons_self _ _)
        · rcases hpre x hx' with hs | hk
          · rcases List.mem_cons.mp hs with hk' | hs'
            · exact Or.inr fun hke => hne (hke ▸ hk' ▸ List.mem_cons_self _ _)
            · exact Or.inl hs'
          · exact Or.inr hk

theorem dedupeGo_complete : ∀ (l : List Ev) (seen : List DKey) (e : Ev),
    e ∈ l → dkey e ∉ seen → ∃ f ∈ dedupeGo seen l, dkey f = dkey e
  | [], _, _, h, _ => absurd h (List.not_mem_nil _)
  | f :: rest, seen, e, h, hs => by
    unfold dedupeGo
    by_cases hm : dkey f ∈ seen
    · rw [if_pos hm]
      rcases List.mem_cons.mp h with rfl | h'
      · exact absurd hm hs
      · exact dedupeGo_complete rest seen e h' hs
    · rw [if_neg hm]
      by_cases hk : dkey e = dkey f
      · exact ⟨f, List.mem_cons_self _ _, hk.symm⟩
      · rcases List.mem_cons.mp h with rfl | h'
        · exact absurd rfl hk
        · obtain ⟨g, hg, hgk⟩ := dedupeGo_complete rest (dkey f :: seen) e h'
            (by intro hmem; rcases List.mem_cons.mp hmem with he | he
                exacts [hk he, hs he])
          exact ⟨g, List.mem_cons_of_mem _ hg, hgk⟩

theorem dedupeGo_id : ∀ (l : List Ev) (seen : List DKey),
    List.Pairwise (fun a b => dkey a ≠ dkey b) l →
    (∀ e ∈ l, dkey e ∉ seen) → dedupeGo seen l = l
  | [], _, _, _ => rfl
  | e :: rest, seen, hp, hd => by
    unfold dedupeGo
    rw [if_neg (hd e (List.mem_cons_self _ _))]
    rw [dedupeGo_id rest (dkey e :: seen) hp.of_cons]
    intro f hf
    intro hmem
    rcases List.mem_cons.mp hmem with hk | hk
    · exact (List.pairwise_cons.mp hp).1 f hf hk.symm
    · exact hd f (List.mem_cons_of_mem _ hf) hk

theorem countP_le_one_of_pairwise {α : Type} (p : α → Bool) :
    ∀ (l : List α), List.Pairwise (fun a b => ¬(p a = true ∧ p b = true)) l →
      l.countP p ≤ 1
  | [], _ => by simp
  | a :: l, hp => by
    rw [List.countP_cons]
    by_cases ha : p a = true
    · have h0 : l.countP p = 0 := by
        rw [List.countP_eq_zero]
        intro b hb hpb
        exact (List.pairwise_cons.mp hp).1 b hb ⟨ha, hpb⟩
      simp [h0, ha]
    · have := countP_le_one_of_pairwise p l hp.of_cons
      simp [ha]
      omega

-- ---------- lemmas: whitespace cleanup ----------

theorem collapseWS_cons_not_ws {c : Char} (l : List Char) (hc : isWS c = false) :
    collapseWS (c :: l) = c :: collapseWS l := by
  cases l with
  | nil => simp [collapseWS, hc]
  | cons d rest => simp only [collapseWS, hc, Bool.false_eq_true, if_false]

theorem collapseWS_noWSRun : ∀ l : List Char, noWSRun (collapseWS l)
  | [] => by simp [collapseWS, noWSRun]
  | [c] => by
    unfold collapseWS noWSRun
    by_cases hc : isWS c = true
    · rw [if_pos (by simp [hc])]
      exact List.chain'_singleton _
    · rw [if_neg (by simp [hc])]
      exact List.chain'_singleton _
  | c :: d :: rest => by
    by_cases hc : isWS c = true
    · simp only [collapseWS, hc, if_true]
      by_cases hd : isWS d = true
      · rw [if_pos (by simp [hd])]
        exact collapseWS_noWSRun (d :: rest)
      · rw [if_neg (by simp [hd])]
        have hrw : collapseWS (d :: rest) = d :: collapseWS rest :=
          collapseWS_cons_not_ws rest (by simpa using hd)
        unfold noWSRun
        rw [List.chain'_cons']
        constructor
        · intro y hy
          rw [hrw] at hy
          simp only [List.head?_cons, Option.mem_def, Option.some.injEq] at hy
          subst hy
          exact fun hcon => hd hcon.2
        · exact collapseWS_noWSRun (d :: rest)
    · rw [collapseWS_cons_not_ws (d :: rest) (by simpa using hc)]
      unfold noWSRun
      rw [List.chain'_cons']
      refine ⟨?_, collapseWS_noWSRun (d :: rest)⟩
      intro y _
      exact fun hcon => hc hcon.1

theorem noWSRun_of_reverse (l : List Char) (h : noWSRun l) : noWSRun l.reverse := by
  unfold noWSRun at h ⊢
  rw [List.chain'_reverse]
  exact h.imp (fun a b hab => fun hc => hab ⟨hc.2, hc.1⟩)

theorem stripList_noWSRun (l : List Char) (h : noWSRun l) : noWSRun (stripList l) := by
  unfold stripList
  apply noWSRun_of_reverse
  refine List.Chain'.suffix ?_ (List.dropWhile_suffix _)
  apply noWSRun_of_reverse
  exact List.Chain'.suffix h (List.dropWhile_suffix _)

theorem dropWhile_head_false {p : Char → Bool} :
    ∀ (l : List Char) (c : Char), (l.dropWhile p).head? = Option.some c → p c = false
  | [], c, h => by cases h
  | a :: l, c, h => by
    rw [List.dropWhile_cons] at h
    by_cases ha : p a = true
    · rw [if_pos ha] at h
      exact dropWhile_head_false l c h
    · rw [if_neg ha] at h
      cases h
      exact Bool.not_eq_true _ |>.mp ha

theorem getLast?_dropWhile {p : Char → Bool} (l : List Char) (c : Char)
    (h : (l.dropWhile p).getLast? = Option.some c) : l.getLast? = Option.some c := by
  obtain ⟨t, ht⟩ := List.dropWhile_suffix (l := l) p
  rw [← ht]
  rw [List.getLast?_append_of_ne_nil]
  · exact h
  · intro he
    rw [he] at h
    cases h

theorem stripList_head (l : List Char) (c : Char)
    (h : (stripList l).head? = Option.some c) : isWS c = false := by
  unfold stripList at h
  rw [List.head?_reverse] at h
  have h2 := getLast?_dropWhile _ c h
  rw [List.getLast?_reverse] at h2
  exact dropWhile_head_false _ c h2

theorem stripList_getLast (l : List Char) (c : Char)
    (h : (stripList l).getLast? = Option.some c) : isWS c = false := by
  unfold stripList at h
  rw [List.getLast?_reverse] at h
  exact dropWhile_head_false _ c h

/-- The output of `_clean` is clean: stripped at both ends with no interior
whitespace run. -/
theorem pyClean_isClean (o : Option String) : isCleanOpt (pyClean o) := by
  cases o with
  | none => trivial
  | some s =>
    show isCleanOpt (if s = "" then Option.none
      else Option.some ⟨stripList (collapseWS s.data)⟩)
    by_cases hs : s = ""
    · rw [if_pos hs]; trivial
    · rw [if_neg hs]
      refine ⟨?_, ?_, ?_⟩
      · intro c hc
        exact stripList_head _ c hc
      · intro c hc
        exact stripList_getLast _ c hc
      · exact stripList_noWSRun _ (collapseWS_noWSRun s.data)

-- ---------- lemmas: the fan-out pipeline ----------

theorem searchEvents_provider_errors (ps : List PRun) (city country : String)
    (da sd : Nat) (lim off now : Nat) :
    (searchEventsModel ps city country da sd true lim off now).provider_errors =
      ps.filterMap errEntry := by
  simp only [searchEventsModel]
  rw [if_neg (by simp)]
  rw [List.filterMap_map]
  congr 1
  funext p
  cases ho : p.outcome <;> simp [callProvider, errEntry, ho]

theorem chunkItems_mem {e : Ev} {dcc : String} {r : String × List Ev × Option String}
    (h : e ∈ chunkItems dcc r) :
    ∃ ev, sanitizeItem ev dcc = Option.some e := by
  unfold chunkItems at h
  split at h
  · exact absurd h (List.not_mem_nil _)
  · obtain ⟨ev, _, hev⟩ := List.mem_filterMap.mp h
    exact ⟨ev, hev⟩

theorem dedupe_sublist (l : List Ev) : (dedupe l).Sublist l :=
  dedupeGo_sublist l []

theorem dedupe_id (l : List Ev) (h : distinctKeys l) : dedupe l = l :=
  dedupeGo_id l [] h (fun e _ => List.not_mem_nil _)

theorem mem_searchEvents_items {e : Ev} (ps : List PRun) (city country : String)
    (da sd : Nat) (im : Bool) (lim off now : Nat)
    (h : e ∈ (searchEventsModel ps city country da sd im lim off now).items) :
    ∃ ev, sanitizeItem ev (defaultCC country) = Option.some e := by
  simp only [searchEventsModel] at h
  have h1 := List.take_subset _ _ h
  have h2 := List.drop_subset _ _ h1
  simp only [sortEvents] at h2
  rw [(List.perm_insertionSort evLE _).mem_iff] at h2
  have h3 := (dedupe_sublist _).subset h2
  obtain ⟨chunk, hchunk, hmem⟩ := List.mem_flatten.mp h3
  obtain ⟨r, _, rfl⟩ := List.mem_map.mp hchunk
  exact chunkItems_mem hmem

theorem searchEvents_items_perm (ps : List PRun) (city country : String)
    (da sd : Nat) (lim now : Nat)
    (hkeys : distinctKeys (okItemsOf ps (defaultCC country)))
    (hlim : (okItemsOf ps (defaultCC country)).length ≤ lim) :
    (searchEventsModel ps city country da sd true lim 0 now).items.Perm
      (okItemsOf ps (defaultCC country)) := by
  simp only [searchEventsModel]
  rw [if_neg (by simp)]
  have hitems :
      (List.map (chunkItems (defaultCC country)) (List.map callProvider ps)).flatten =
        okItemsOf ps (defaultCC country) := by
    rw [List.map_map]
    rfl
  rw [hitems, dedupe_id _ hkeys, List.drop_zero]
  simp only [sortEvents]
  have hp := List.perm_insertionSort evLE (okItemsOf ps (defaultCC country))
  rw [List.take_of_length_le (le_trans (le_of_eq hp.length_eq) hlim)]
  exact hp

theorem searchEvents_window (ps : List PRun) (city country : String)
    (da sd : Nat) (im : Bool) (lim off now : Nat) :
    (searchEventsModel ps city country da sd im lim off now).window =
      dateWindow sd da now := by
  simp only [searchEventsModel]

theorem dateWindow_eq (sd da now : Nat) :
    dateWindow sd da now =
      ((now / 86400 + sd) * 86400, (now / 86400 + sd + da) * 86400 + 86399) := by
  unfold dateWindow
  have h1 : (now + sd * 86400) / 86400 = now / 86400 + sd :=
    Nat.add_mul_div_right now sd (by omega)
  have h2 : (now + (sd + da) * 86400) / 86400 = now / 86400 + (sd + da) :=
    Nat.add_mul_div_right now (sd + da) (by omega)
  rw [h1, h2]
  simp [Nat.add_assoc]

theorem dkey_of_url {e : Ev} {u : String} (he : e.url = Option.some u) (hu : u ≠ "") :
    dkey e = DKey.byUrl u := by
  unfold dkey
  split
  next u' heq =>
    rw [he] at heq
    cases Option.some.inj heq
    rw [if_pos hu]
  next heq =>
    rw [he] at heq
    cases heq

-- ---------- claim theorems ----------

/-- C7 (confirmed): the Deduplicator's output is a sublist of its input
whose dedup keys are pairwise distinct (so two records with the same
non-empty `url` collapse to at most one, the last conjunct), every input
key is still represented, and each survivor is the first occurrence of its
key in input order. -/
theorem dedupe_exact_key_spec (items : List Ev) :
    (dedupe items).Sublist items ∧
    List.Pairwise (fun a b => dkey a ≠ dkey b) (dedupe items) ∧
    (∀ e ∈ items, ∃ f ∈ dedupe items, dkey f = dkey e) ∧
    (∀ f ∈ dedupe items,
       ∃ pre post, items = pre ++ f :: post ∧ ∀ x ∈ pre, dkey x ≠ dkey f) ∧
    (∀ u, u ≠ "" →
       (dedupe items).countP (fun e => e.url == Option.some u) ≤ 1) := by
  refine ⟨dedupe_sublist items, dedupeGo_pairwise items [], ?_, ?_, ?_⟩
  · intro e he
    exact dedupeGo_complete items [] e he (List.not_mem_nil _)
  · intro f hf
    obtain ⟨pre, post, heq, hpre⟩ := dedupeGo_first_occ items [] f hf
    refine ⟨pre, post, heq, ?_⟩
    intro x hx
    rcases hpre x hx with hs | hk
    · exact absurd hs (List.not_mem_nil _)
    · exact hk
  · intro u hu
    apply countP_le_one_of_pairwise
    apply (dedupeGo_pairwise items []).imp
    intro a b hab hcon
    apply hab
    have ha : a.url = Option.some u := by simpa using hcon.1
    have hb : b.url = Option.some u := by simpa using hcon.2
    rw [dkey_of_url ha hu, dkey_of_url hb hu]

/-- Witness for C7 at a concrete two-element list sharing one url. -/
theorem dedupe_exact_key_spec_witness :
    (dedupe [evU1, evU2]).countP (fun e => e.url == Option.some "https://ex.example/u") ≤ 1 :=
  (dedupe_exact_key_spec [evU1, evU2]).2.2.2.2 "https://ex.example/u" (by decide)

/-- C1 (counterexample): the two "Jazz Night" records share venue and
start date and their titles differ only by `at` versus `@`, yet `_dedupe`
keeps both — there is no fuzzy pass, so they do not collapse to one. -/
theorem fuzzy_dedup_cex :
    jazz1.venue_name = jazz2.venue_name ∧
    jazz1.start_time = jazz2.start_time ∧
    dedupe [jazz1, jazz2] = [jazz1, jazz2] ∧
    (dedupe [jazz1, jazz2]).length ≠ 1 :=
  ⟨rfl, rfl, rfl, by decide⟩

/-- C1 (amended): the Deduplicator collapses records only on exact keys —
identical lowercased/trimmed title with the same start, venue and city (or
the same non-empty url) — keeping the earlier record; the fuzzy-similar
"Jazz Night" pair has distinct titles, hence distinct keys, and both
survive. -/
theorem fuzzy_dedup_amended :
    dedupe [jazz1, jazz2] = [jazz1, jazz2] ∧
    dkey jazz1 ≠ dkey jazz2 ∧
    dkey jazz1 = dkey jazzDup ∧
    dedupe [jazz1, jazzDup] = [jazz1] :=
  ⟨rfl, by decide, rfl, rfl⟩

/-- C2 (confirmed): with the provider calls settled, the aggregate search
never loses a non-raising provider's items and never propagates a
provider's exception: `debug.provider_errors` holds exactly one entry per
raising provider, keyed by that provider's key and holding its error
string, and — when the sanitized pool has pairwise-distinct dedup keys and
fits the page — the returned items are exactly (a permutation of) the
non-raising providers' sanitized items, the raising providers contributing
nothing. -/
theorem search_partial_failure_isolation (ps : List PRun) (city country : String)
    (da sd lim now : Nat)
    (hkeys : distinctKeys (okItemsOf ps (defaultCC country)))
    (hlim : (okItemsOf ps (defaultCC country)).length ≤ lim) :
    (searchEventsModel ps city country da sd true lim 0 now).provider_errors =
      ps.filterMap errEntry ∧
    (∀ k e,
      (k, e) ∈ (searchEventsModel ps city country da sd true lim 0 now).provider_errors ↔
        ∃ p ∈ ps, p.key = k ∧ p.outcome = Except.error e) ∧
    (searchEventsModel ps city country da sd true lim 0 now).items.Perm
      (okItemsOf ps (defaultCC country)) := by
  refine ⟨searchEvents_provider_errors ps city country da sd lim 0 now, ?_,
    searchEvents_items_perm ps city country da sd lim now hkeys hlim⟩
  intro k e
  rw [searchEvents_provider_errors ps city country da sd lim 0 now]
  rw [List.mem_filterMap]
  constructor
  · rintro ⟨p, hp, hpe⟩
    cases ho : p.outcome with
    | ok _ => rw [errEntry, ho] at hpe; cases hpe
    | error e0 =>
      rw [errEntry, ho] at hpe
      obtain ⟨h1, h2⟩ := Prod.mk.injEq .. |>.mp (Option.some.inj hpe)
      exact ⟨p, hp, h1, by rw [ho, h2]⟩
  · rintro ⟨p, hp, rfl, ho⟩
    exact ⟨p, hp, by rw [errEntry, ho]⟩

/-- Witness for C2: three providers, one raising. -/
theorem search_partial_failure_isolation_witness :
    (searchEventsModel [pAlpha, pBoom, pGamma] "Vilnius" "LT" 60 0 true 50 0 0).provider_errors =
      [("boom", "RuntimeError: kaput")] ∧
    (searchEventsModel [pAlpha, pBoom, pGamma] "Vilnius" "LT" 60 0 true 50 0 0).items.Perm
      (okItemsOf [pAlpha, pBoom, pGamma] (defaultCC "LT")) := by
  have h := search_partial_failure_isolation [pAlpha, pBoom, pGamma] "Vilnius" "LT"
    60 0 50 0 (by decide) (by decide)
  exact ⟨by rw [h.1]; rfl, h.2.2⟩

/-- C3 (counterexample): a raw provider item with no title flows through
`search_events` untouched — the result contains a record whose title is
missing, contradicting the claim that such items never appear in the
normalized output. -/
theorem title_requirement_cex :
    (searchEventsModel [{ key := "p", outcome := Except.ok [evNoTitle] }]
        "Vilnius" "LT" 60 0 true 50 0 0).items =
      [{ evNoTitle with country := Value.str "LT", source := Option.some "p" }] ∧
    ({ evNoTitle with country := Value.str "LT", source := Option.some "p" } : Ev).title =
      Option.none :=
  ⟨rfl, rfl⟩

/-- C3 (amended): an item with a missing or empty title is not dropped
anywhere: `build_event` still builds the record — its title is the
stripped original, the empty string when the title was missing — and the
pipeline's per-item sanitization decides survival by country alone, never
by title. -/
theorem title_amended (st city url venue cat desc img eid src : Option String)
    (country cur mp : Value) :
    (buildEvent Option.none st city country url venue cat desc img cur mp eid src).title =
      Option.some "" ∧
    (∀ t : String,
      (buildEvent (Option.some t) st city country url venue cat desc img cur mp eid src).title =
        Option.some (pyStrip t)) ∧
    (∀ (ev : Ev) (t' : Option String) (dcc : String),
      (sanitizeItem { ev with title := t' } dcc).isSome = (sanitizeItem ev dcc).isSome) :=
  ⟨rfl, fun _ => rfl, fun ev t' dcc => sanitizeItem_title_blind ev t' dcc⟩

/-- Witness for C3's amended statement at concrete inputs. -/
theorem title_amended_witness :
    (buildEvent Option.none Option.none Option.none Value.none Option.none Option.none
        Option.none Option.none Option.none Value.none Value.none Option.none
        Option.none).title = Option.some "" ∧
    (sanitizeItem { jazz1 with title := Option.none } "LT").isSome =
      (sanitizeItem jazz1 "LT").isSome := by
  have h := title_amended Option.none Option.none Option.none Option.none Option.none
    Option.none Option.none Option.none Option.none Value.none Value.none Value.none
  exact ⟨h.1, h.2.2 jazz1 Option.none "LT"⟩

/-- C5 (counterexample): the long-string fallback of `_coerce_country`
uppercases the first two characters of any unrecognized string of length
at least two, so `"12"` comes back as the 2-character non-letter string
`"12"` — the claim's "never a 2-character string containing non-letters"
fails. -/
theorem country_coercion_cex :
    coerceCountry (Value.str "12") (Option.some "LT") = Option.some "12" ∧
    ("12" : String).length = 2 ∧
    pyIsAlpha "12" = false :=
  ⟨rfl, rfl, rfl⟩

/-- C5 (amended): country coercion returns the caller-supplied default
unchanged or a string of exactly 2 characters containing no lowercase
letter (uppercased, but not necessarily letters — e.g. `"12"`). -/
theorem country_coercion_amended (v : Value) (d : Option String) :
    coerceCountry v d = d ∨
    ∃ t, coerceCountry v d = Option.some t ∧ t.length = 2 ∧ noLowerStr t = true :=
  coerceCountry_shape v d

/-- Witness for C5's amended statement on a nested address-like dict. -/
theorem country_coercion_amended_witness :
    coerceCountry (Value.dict (EntryList.cons "countryCode" (Value.str "lt") EntryList.nil))
        (Option.some "EE") = Option.some "EE" ∨
    ∃ t, coerceCountry (Value.dict (EntryList.cons "countryCode" (Value.str "lt") EntryList.nil))
        (Option.some "EE") = Option.some t ∧ t.length = 2 ∧ noLowerStr t = true :=
  country_coercion_amended
    (Value.dict (EntryList.cons "countryCode" (Value.str "lt") EntryList.nil))
    (Option.some "EE")

/-- C6 (counterexample): `_coerce_min_price` parses `"-5"` to the negative
float −5.0, so coerced values are not always non-negative. -/
theorem min_price_cex :
    coerceMinPrice (Value.str "-5") = Option.some (-5 : Rat) ∧ ((-5 : Rat) < 0) :=
  ⟨by decide, by decide⟩

/-- C6 (amended): min-price coercion never raises — `None`, empty and
malformed price strings coerce to `None`, numeric strings parse to their
value — but that value may be negative (e.g. `"-5"` gives −5.0), so the
claim's non-negativity does not hold. -/
theorem min_price_amended :
    coerceMinPrice Value.none = Option.none ∧
    coerceMinPrice (Value.str "not-a-number") = Option.none ∧
    coerceMinPrice (Value.str "   ") = Option.none ∧
    coerceMinPrice (Value.str " 12 ") = Option.some (12 : Rat) ∧
    coerceMinPrice (Value.str "-5") = Option.some (-5 : Rat) :=
  ⟨rfl, rfl, rfl, by decide, by decide⟩

/-- C8 (counterexample): with `start_in_days = 0` and `days_ahead = 1`
from instant 0, the code's window ends at second 172799 — 23:59:59 of the
day after the start day — not at second 86399, the 23:59:59 of the last
day of a window covering exactly one day. -/
theorem date_window_cex :
    dateWindow 0 1 0 = (0, 172799) ∧ (172799 : Nat) ≠ 0 * 86400 + 86399 :=
  ⟨rfl, by decide⟩

/-- C8 (amended): the window starts at 00:00:00 of the UTC day
`start_in_days` days after now and ends at 23:59:59 of the UTC day
`start_in_days + days_ahead` days after now — covering `days_ahead + 1`
calendar days, one more than the claim's parenthetical — and the facade
reports exactly this window in `debug.window`. -/
theorem date_window_amended (sd da now : Nat) (ps : List PRun)
    (city country : String) (im : Bool) (lim off : Nat) :
    dateWindow sd da now =
      ((now / 86400 + sd) * 86400, (now / 86400 + sd + da) * 86400 + 86399) ∧
    (searchEventsModel ps city country da sd im lim off now).window =
      dateWindow sd da now :=
  ⟨dateWindow_eq sd da now, searchEvents_window ps city country da sd im lim off now⟩

/-- Witness for C8's amended statement at a concrete instant. -/
theorem date_window_amended_witness :
    dateWindow 3 7 86401 =
      ((86401 / 86400 + 3) * 86400, (86401 / 86400 + 3 + 7) * 86400 + 86399) ∧
    (searchEventsModel [] "Vilnius" "LT" 7 3 false 50 0 86401).window =
      dateWindow 3 7 86401 :=
  date_window_amended 3 7 86401 [] "Vilnius" "LT" false 50 0

/-- C9 (counterexample): a provider item whose title has a double space
and a trailing space reaches the `search_events` result byte-for-byte
unchanged — the pipeline applies no whitespace cleanup, even though
`_clean` would have produced the collapsed, trimmed form. -/
theorem whitespace_cleanup_cex :
    (searchEventsModel [{ key := "p", outcome := Except.ok [evMessy] }]
        "Vilnius" "LT" 60 0 true 50 0 0).items =
      [{ evMessy with country := Value.str "LT", source := Option.some "p" }] ∧
    ({ evMessy with country := Value.str "LT", source := Option.some "p" } : Ev).title =
      Option.some "Jazz  Night " ∧
    pyClean (Option.some "Jazz  Night ") = Option.some "Jazz Night" ∧
    Option.some "Jazz  Night " ≠ Option.some "Jazz Night" :=
  ⟨rfl, rfl, rfl, by decide⟩

/-- C9 (amended): whitespace cleanup happens only in `build_event`, which
providers use to construct records: there `venue_name` and `city` are
collapsed and trimmed by `_clean` while the title is only stripped at the
ends; the facade pipeline itself leaves `title`, `venue_name` and `city`
exactly as the provider returned them (only `country` is overwritten). -/
theorem whitespace_amended (t : String)
    (st city url venue cat desc img eid src : Option String)
    (country cur mp : Value) :
    isCleanOpt (buildEvent (Option.some t) st city country url venue cat desc img
      cur mp eid src).venue_name ∧
    isCleanOpt (buildEvent (Option.some t) st city country url venue cat desc img
      cur mp eid src).city ∧
    (buildEvent (Option.some t) st city country url venue cat desc img
      cur mp eid src).title = Option.some (pyStrip t) ∧
    (∀ (ev : Ev) (dcc : String) (e' : Ev), sanitizeItem ev dcc = Option.some e' →
      e'.title = ev.title ∧ e'.venue_name = ev.venue_name ∧ e'.city = ev.city) := by
  refine ⟨pyClean_isClean venue, pyClean_isClean city, rfl, ?_⟩
  intro ev dcc e' h
  obtain ⟨s, _, _, rfl⟩ := sanitizeItem_eq_some h
  exact ⟨rfl, rfl, rfl⟩

/-- Witness for C9's amended statement at concrete inputs. -/
theorem whitespace_amended_witness :
    isCleanOpt (buildEvent (Option.some "Jazz  Night ") Option.none
      (Option.some " Vilnius  Old Town ") Value.none Option.none
      (Option.some " Blue  Note ") Option.none Option.none Option.none
      Value.none Value.none Option.none Option.none).venue_name ∧
    ({ jazz1 with country := Value.str "LT" } : Ev).title = jazz1.title := by
  have h := whitespace_amended "Jazz  Night " Option.none
    (Option.some " Vilnius  Old Town ") Option.none (Option.some " Blue  Note ")
    Option.none Option.none Option.none Option.none Option.none
    Value.none Value.none Value.none
  refine ⟨h.1, (h.2.2.2 jazz1 "LT" { jazz1 with country := Value.str "LT" } rfl).1⟩

/-- C10 (confirmed): every item in a `search_events` result carries a
non-empty country string — `_sanitize_item` overwrites `country` with the
coerced value, whose default (the first two uppercased characters of the
requested country, or "LT" when that is empty) is always non-empty — and
consequently the sanitization step never drops an item. -/
theorem search_items_country_nonempty (ps : List PRun) (city country : String)
    (da sd : Nat) (im : Bool) (lim off now : Nat) :
    (∀ e ∈ (searchEventsModel ps city country da sd im lim off now).items,
       ∃ s, s ≠ "" ∧ e.country = Value.str s) ∧
    defaultCC country ≠ "" ∧
    (∀ ev : Ev, sanitizeItem ev (defaultCC country) ≠ Option.none) := by
  refine ⟨?_, defaultCC_ne_empty country, ?_⟩
  · intro e he
    obtain ⟨ev, hev⟩ := mem_searchEvents_items ps city country da sd im lim off now he
    obtain ⟨s, hs, _, rfl⟩ := sanitizeItem_eq_some hev
    exact ⟨s, hs, rfl⟩
  · intro ev
    exact sanitizeItem_ne_none ev _ (defaultCC_ne_empty country)

/-- Witness for C10 at a concrete search whose single item is inspected. -/
theorem search_items_country_nonempty_witness :
    (∃ s, s ≠ "" ∧
      ({ evA with country := Value.str "LT", source := Option.some "alpha" } : Ev).country =
        Value.str s) ∧
    sanitizeItem jazz2 (defaultCC "LT") ≠ Option.none := by
  have h := search_items_country_nonempty [pAlpha] "Vilnius" "LT" 60 0 true 50 0 0
  refine ⟨h.1 _ ?_, h.2.2 jazz2⟩
  show _ ∈ (searchEventsModel [pAlpha] "Vilnius" "LT" 60 0 true 50 0 0).items
  exact List.mem_singleton_self _

/-- C4 (code bug): re-running `_load_providers` over the same one-module
package replaces the providers and the loaded/skipped/errors ledger
entries, but `discovered_modules` — which `_iter_provider_modules` appends
to and nothing clears — accumulates a second copy of every module name, so
re-discovery is not idempotent on the full ledger. -/
theorem discovery_rerun_accumulates :
    (loadProviders [mockMod] DiscoveryState.empty).discovered_modules =
      ["providers.mock_local"] ∧
    (loadProviders [mockMod] (loadProviders [mockMod] DiscoveryState.empty)).discovered_modules =
      ["providers.mock_local", "providers.mock_local"] ∧
    (loadProviders [mockMod] (loadProviders [mockMod] DiscoveryState.empty)).providers =
      (loadProviders [mockMod] DiscoveryState.empty).providers ∧
    (loadProviders [mockMod] (loadProviders [mockMod] DiscoveryState.empty)).loaded =
      (loadProviders [mockMod] DiscoveryState.empty).loaded ∧
    (loadProviders [mockMod] (loadProviders [mockMod] DiscoveryState.empty)).skipped =
      (loadProviders [mockMod] DiscoveryState.empty).skipped ∧
    (loadProviders [mockMod] (loadProviders [mockMod] DiscoveryState.empty)).errors =
      (loadProviders [mockMod] DiscoveryState.empty).errors :=
  ⟨rfl, rfl, rfl, rfl, rfl, rfl⟩
